import Mathlib

/-
  Verification of the grammar-checking core of `website-grammar-checker`
  (src/grammarChecker.ts) against its natural-language specification.

  JavaScript strings are embedded as lists of characters (`Str`).  The
  pure text-analysis pipeline of `GrammarChecker.checkPage` is embedded
  directly; browser automation, HTML extraction and report rendering are
  outside the core (spec section 1) and are not modelled.  Sentence
  segmentation is performed in the source by the external `compromise`
  NLP library (`nlp(text).sentences().out('array')`), which is not part
  of this repository; the pipeline is therefore parameterised by the
  segmentation function, and a segmenter modelled from spec section 4.1
  is used for concrete scenarios.
-/

set_option maxRecDepth 8000

/-- Characters of the analysed text.  The TypeScript source manipulates
JavaScript strings; we embed them as lists of characters. -/
abbrev Str := List Char

/-- Conversion from Lean string literals to the embedded string type. -/
def str (s : String) : Str := s.data

/-- JavaScript whitespace as matched by `\s` and removed by
`String.prototype.trim` (restricted to the ASCII whitespace characters
that can occur in the analysed text). -/
def isSpaceChar (c : Char) : Bool :=
  decide (c = ' ' ∨ c = '\t' ∨ c = '\n' ∨ c = '\r' ∨ c = '\x0b' ∨ c = '\x0c')

/-- Uppercase ASCII letter, the class `[A-Z]`. -/
def isUpperChar (c : Char) : Bool := decide ('A' ≤ c ∧ c ≤ 'Z')

/-- Lowercase ASCII letter, the class `[a-z]`. -/
def isLowerChar (c : Char) : Bool := decide ('a' ≤ c ∧ c ≤ 'z')

/-- Decimal digit, the class `[0-9]`. -/
def isDigitChar (c : Char) : Bool := decide ('0' ≤ c ∧ c ≤ '9')

/-- ASCII letter, the class `[a-zA-Z]`. -/
def isAlphaChar (c : Char) : Bool := isUpperChar c || isLowerChar c

/-- JavaScript word character, the class `[A-Za-z0-9_]` used by `\b`. -/
def isWordChar (c : Char) : Bool := isAlphaChar c || isDigitChar c || decide (c = '_')

/-- Sentence-terminating punctuation, the class `[.!?]`. -/
def isTermChar (c : Char) : Bool := decide (c = '.' ∨ c = '!' ∨ c = '?')

/-- ASCII lowering, as performed by `String.prototype.toLowerCase` on the
ASCII range (the only characters the source's vocabulary lists contain). -/
def toLowerChar (c : Char) : Char :=
  if isUpperChar c then Char.ofNat (c.toNat + 32) else c

/-- Lowering of a whole string. -/
def toLowerStr (t : Str) : Str := t.map toLowerChar

/-- Left trim: drop leading JavaScript whitespace. -/
def trimLeft (l : Str) : Str := l.dropWhile isSpaceChar

/-- Right trim: drop trailing JavaScript whitespace. -/
def trimRight (l : Str) : Str := (l.reverse.dropWhile isSpaceChar).reverse

/-- `String.prototype.trim`. -/
def trim (l : Str) : Str := trimRight (trimLeft l)

/-- Accumulator pass for whitespace tokenisation: splits the input into
the maximal whitespace-free tokens, as `text.split(/\s+/)` followed by
filtering out empty pieces does in the source. -/
def tokensAux : List Char → List Char → List Str
  | [], cur => if cur.isEmpty then [] else [cur.reverse]
  | c :: rest, cur =>
    if isSpaceChar c then
      if cur.isEmpty then tokensAux rest [] else cur.reverse :: tokensAux rest []
    else tokensAux rest (c :: cur)

/-- Whitespace tokens of a string: `text.split(/\s+/).filter(w => w.length > 0)`. -/
def tokens (t : Str) : List Str := tokensAux t []

/-- Does `p` occur in `t` starting at index `i` (exact characters)? -/
def substrAt (p t : Str) (i : Nat) : Bool := p.isPrefixOf (t.drop i)

/-- Does `p` occur somewhere in `t` (exact characters)?  This is
`t.includes(p)`. -/
def containsSub (p t : Str) : Bool :=
  (List.range (t.length + 1)).any (fun i => substrAt p t i)

/-- Case-insensitive occurrence of `p` in `t` at index `i`. -/
def ciAt (p t : Str) (i : Nat) : Bool :=
  decide (i + p.length ≤ t.length) &&
  (List.range p.length).all (fun m =>
    match t.get? (i + m), p.get? m with
    | some a, some b => decide (toLowerChar a = toLowerChar b)
    | _, _ => false)

/-- Case-insensitive occurrence of `p` somewhere in `t`; this is what a
`/p/i.test(t)` on a literal alternative `p` checks. -/
def ciContains (p t : Str) : Bool :=
  (List.range (t.length + 1)).any (fun i => ciAt p t i)

/-- Is the position `i` preceded by a non-word character (or the start of
the string)?  This is the `\b` test before a word character. -/
def nonWordBefore (t : Str) (i : Nat) : Bool :=
  match i with
  | 0 => true
  | Nat.succ j =>
    match t.get? j with
    | some c => !isWordChar c
    | none => true

/-- Is the position `i` followed by a non-word character (or the end of
the string)?  This is the `\b` test after a word character. -/
def nonWordAfter (t : Str) (i : Nat) : Bool :=
  match t.get? i with
  | some c => !isWordChar c
  | none => true

/-- A case-insensitive word-bounded occurrence of `w` in `t` at `i`:
`\bw\b` with the `i` flag. -/
def wordAtCI (w t : Str) (i : Nat) : Bool :=
  ciAt w t i && nonWordBefore t i && nonWordAfter t (i + w.length)

/-- No line terminator in `t` on the index interval `[a, b)`: the region a
JavaScript `.*` (without the `s` flag) must be able to span. -/
def noNlBetween (t : Str) (a b : Nat) : Bool :=
  (List.range' a (b - a)).all (fun m =>
    match t.get? m with
    | some c => decide (¬(c = '\n' ∨ c = '\r'))
    | none => false)

/-- Index (into the full text) of the first `[.!?]` character at or after
position `i`, or `t.length` when there is none. -/
def firstTermFrom (t : Str) (i : Nat) : Nat :=
  match (t.drop i).findIdx? isTermChar with
  | some k => i + k
  | none => t.length

/-- Is `e` a position where a multiline `$` matches: the end of the text,
or a position standing immediately before a line terminator? -/
def isLineEnd (t : Str) (e : Nat) : Bool :=
  decide (e = t.length) ||
  (match t.get? e with
   | some c => decide (c = '\n' ∨ c = '\r')
   | none => false)

/-- The largest `$`-position `e` with `lo ≤ e ≤ hi`, if any. -/
def maxLineEnd (t : Str) (lo hi : Nat) : Option Nat :=
  ((List.range (hi + 1)).filter (fun e => decide (lo ≤ e) && isLineEnd t e)).getLast?

/-- `text.indexOf(needle)` : index of the first occurrence, `-1` when the
needle does not occur. -/
def indexOfSub (needle hay : Str) : Int :=
  match (List.range (hay.length + 1)).find? (fun i => substrAt needle hay i) with
  | some i => (i : Int)
  | none => -1

/-- Best-effort location of an error span, `src/grammarChecker.ts` lines
11-14. -/
structure ErrPosition where
  offset : Int
  length : Nat
deriving DecidableEq

/-- One flagged issue, `GrammarError` of `src/grammarChecker.ts` lines 6-15. -/
structure GrammarError where
  message : Str
  context : Str
  suggestions : List Str
  ruleId : Str
  position : ErrPosition
deriving DecidableEq

/-- The run's output, `CheckResult` of `src/grammarChecker.ts` lines 17-22. -/
structure CheckResult where
  url : Str
  totalErrors : Nat
  errors : List GrammarError
  rawText : Str
deriving DecidableEq

/-- Configuration of the checker, `src/grammarChecker.ts` lines 27-32.
`language` and `motherTongue` are pure passthroughs with no behavioural
effect in the source and are omitted. -/
structure CheckerOptions where
  detectIncomplete : Bool
  disabledRules : List Str
deriving DecidableEq

/-- The constructor of `GrammarChecker` (lines 27-36): `detectIncomplete`
defaults to `true` unless explicitly passed as `false`
(`options.detectIncomplete !== false`), and the processed-fragment set
starts empty.  The returned pair is (options, processedFragments). -/
def newChecker (detectIncomplete? : Option Bool) (disabledRules : List Str) :
    CheckerOptions × List Str :=
  (⟨!(detectIncomplete? == some false), disabledRules⟩, [])

/-- A word of shape `[A-Z][a-z]+` (an uppercase letter followed by at
least one lowercase letter, nothing else). -/
def capWord (w : Str) : Bool :=
  match w with
  | [] => false
  | c :: rest => isUpperChar c && !rest.isEmpty && rest.all isLowerChar

/-- A token of shape `[A-Z][a-z0-9]*` as used by the title-case heading
test. -/
def titleTok (w : Str) : Bool :=
  match w with
  | [] => false
  | c :: rest => isUpperChar c && rest.all (fun d => isLowerChar d || isDigitChar d)

/-- Eat an exact literal word at the front of the remaining input. -/
def eatWord (w t : Str) : Option Str :=
  if w.isPrefixOf t then some (t.drop w.length) else none

/-- Eat `\s+` (at least one whitespace character, maximal munch: the
continuations in the source's heading patterns all start with a
non-whitespace class, so maximal munch is equivalent). -/
def eatWs1 (t : Str) : Option Str :=
  match t with
  | [] => none
  | c :: _ => if isSpaceChar c then some (t.dropWhile isSpaceChar) else none

/-- The suffix language `(\s+[A-Z][a-zA-Z0-9\s]*)+$` of the numbered and
Roman-numeral heading patterns: one or more whitespace characters, an
uppercase letter, and then only letters, digits and whitespace.  (Because
the repeated group's trailing class already contains everything a further
iteration could consume, one iteration describes the whole language.) -/
def wsUpperTail (rest : Str) : Bool :=
  match eatWs1 rest with
  | none => false
  | some r =>
    match r with
    | [] => false
    | c :: r2 => isUpperChar c && r2.all (fun d => isAlphaChar d || isDigitChar d || isSpaceChar d)

/-- Heading test 1 of `isHeadingOrTitle` (lines 146-148):
`^([A-Z]|[0-9]+)\.(\s+[A-Z][a-zA-Z0-9\s]*)+$` — numbered or lettered
section headings such as `"1. Introduction"`. -/
def numberedHeading (tt : Str) : Bool :=
  (match tt with
   | c :: '.' :: rest => isUpperChar c && wsUpperTail rest
   | _ => false) ||
  (match tt.span isDigitChar with
   | (ds, rest) =>
     !ds.isEmpty &&
     (match rest with
      | '.' :: r2 => wsUpperTail r2
      | _ => false))

/-- The Roman-numeral alternatives of heading test 2, in source order. -/
def romanNumerals : List Str :=
  [str "I", str "II", str "III", str "IV", str "V", str "VI", str "VII",
   str "VIII", str "IX", str "X", str "XI", str "XII"]

/-- Heading test 2 of `isHeadingOrTitle` (lines 152-154):
`^(I|II|...|XII)\.(\s+[A-Z][a-zA-Z0-9\s]*)+$`. -/
def romanHeading (tt : Str) : Bool :=
  romanNumerals.any (fun r =>
    match eatWord r tt with
    | some ('.' :: rest) => wsUpperTail rest
    | _ => false)

/-- Heading test 3 of `isHeadingOrTitle` (lines 158-162): a short
title-case phrase — `^([A-Z][a-z0-9]*\s+){1,7}[A-Z][a-z0-9]*$` (i.e. 2 to
8 whitespace-separated `[A-Z][a-z0-9]*` tokens), under 60 characters and
containing no comma. -/
def titleCasePhrase (tt : Str) : Bool :=
  let ts := tokens tt
  decide (2 ≤ ts.length) && decide (ts.length ≤ 8) && ts.all titleTok &&
  decide (tt.length < 60) && !tt.contains ','

/-- Heading test 4 of `isHeadingOrTitle` (lines 166-168):
`^([A-Z][a-z]+\s+){0,2}of(\s+[A-Z][a-z]+){1,3}$`, e.g.
`"Collection of Personal Information"`.  Stated over the whitespace
tokens: up to two capitalised words, the exact token `of`, then one to
three capitalised words consuming the rest. -/
def ofHeading (tt : Str) : Bool :=
  let ts := tokens tt
  [0, 1, 2].any (fun k =>
    decide (k < ts.length) && (ts.take k).all capWord &&
    decide (ts.get? k = some (str "of")) &&
    (let post := ts.drop (k + 1)
     decide (1 ≤ post.length) && decide (post.length ≤ 3) && post.all capWord))

/-- Tail `[A-Z][a-zA-Z\s]*$` shared by heading tests 5 and 6: an
uppercase letter followed only by letters and whitespace. -/
def upperLetterTail (r : Str) : Bool :=
  match r with
  | [] => false
  | c :: r2 => isUpperChar c && r2.all (fun d => isAlphaChar d || isSpaceChar d)

/-- Heading test 5 of `isHeadingOrTitle` (lines 172-174):
`^The\s+Right\s+to\s+[A-Z][a-zA-Z\s]*$`. -/
def rightToHeading (tt : Str) : Bool :=
  match eatWord (str "The") tt with
  | none => false
  | some r1 =>
    match eatWs1 r1 with
    | none => false
    | some r2 =>
      match eatWord (str "Right") r2 with
      | none => false
      | some r3 =>
        match eatWs1 r3 with
        | none => false
        | some r4 =>
          match eatWord (str "to") r4 with
          | none => false
          | some r5 =>
            match eatWs1 r5 with
            | none => false
            | some r6 => upperLetterTail r6

/-- Heading test 6 of `isHeadingOrTitle` (lines 178-180):
`^How\s+(to|We)\s+[A-Z][a-zA-Z\s]*$`. -/
def howHeading (tt : Str) : Bool :=
  match eatWord (str "How") tt with
  | none => false
  | some r1 =>
    match eatWs1 r1 with
    | none => false
    | some r2 =>
      [str "to", str "We"].any (fun alt =>
        match eatWord alt r2 with
        | none => false
        | some r3 =>
          match eatWs1 r3 with
          | none => false
          | some r4 => upperLetterTail r4)

/-- The smart double quotes of the class `[““]`/`[””]` in heading test 7. -/
def isSmartQuote (c : Char) : Bool := decide (c = '“' ∨ c = '”')

/-- After the colon of heading test 7: `.*\([““][^)]+[””]\)$` — the text
must end with a parenthesised smart-quoted organisation name, with the
part before the opening parenthesis free of line terminators (a `.*`
region). -/
def quotedParenTail (tl : Str) : Bool :=
  (List.range (tl.length + 1)).any (fun k =>
    (tl.take k).all (fun d => !(decide (d = '\n' ∨ d = '\r'))) &&
    (match tl.drop k with
     | '(' :: q1 :: rest =>
       isSmartQuote q1 &&
       (match rest.reverse with
        | ')' :: q2 :: innerRev =>
          isSmartQuote q2 && !innerRev.isEmpty && innerRev.all (fun d => !(decide (d = ')')))
        | _ => false)
     | _ => false))

/-- Consume `[A-Z][a-z]+(\s+[A-Z][a-z]+)*` with bounded iteration depth,
returning the rest after the last capitalised word. -/
def eatCapWords : Nat → Str → Option Str
  | 0, _ => none
  | Nat.succ n, t =>
    match t with
    | c :: rest =>
      if isUpperChar c then
        match rest.span isLowerChar with
        | (lows, r) =>
          if lows.isEmpty then none
          else
            -- optionally continue with \s+ and another capitalised word;
            -- on failure of the continuation, backtrack to the position
            -- right after the last capitalised word
            (match eatWs1 r with
             | some r2 =>
               match eatCapWords n r2 with
               | some r3 => some r3
               | none => some r
             | none => some r)
      else none
    | [] => none

/-- Heading test 7 of `isHeadingOrTitle` (lines 183-185):
`^[A-Z][a-z]+(\s+[A-Z][a-z]+)*:.*\([““][^)]+[””]\)$` — a capitalised
document title, a colon, and a trailing parenthesised smart-quoted name. -/
def titleWithOrg (tt : Str) : Bool :=
  match eatCapWords (tt.length + 1) tt with
  | none => false
  | some r =>
    match r with
    | ':' :: tl => quotedParenTail tl
    | _ => false

/-- The closed list of common legal-document section titles of
`isHeadingOrTitle` (lines 188-194), compared case-insensitively. -/
def commonTitles : List Str :=
  [str "introduction", str "purpose", str "scope", str "definitions",
   str "privacy policy", str "terms of service", str "disclaimer",
   str "collection of information", str "use of information",
   str "information sharing", str "data protection", str "security measures",
   str "your rights", str "contact us", str "effective date"]

/-- `GrammarChecker.isHeadingOrTitle` (lines 138-203): the heading/title
exemption of the Noise Classifier.  The input is trimmed first; an empty
trimmed text is not a heading. -/
def isHeadingOrTitle (text : Str) : Bool :=
  let tt := trim text
  if tt.isEmpty then false
  else
    numberedHeading tt || romanHeading tt || titleCasePhrase tt || ofHeading tt ||
    rightToHeading tt || howHeading tt || titleWithOrg tt ||
    commonTitles.any (fun title => decide (toLowerStr tt = title))

/-- Skip rule `^[A-Z][A-Za-z\s]{3,}:$` of `shouldSkipText` (line 220):
headings that end with a colon. -/
def colonHeading (tt : Str) : Bool :=
  match tt with
  | c :: rest =>
    isUpperChar c &&
    (match rest.reverse with
     | ':' :: midRev =>
       decide (3 ≤ midRev.length) &&
       midRev.all (fun d => isAlphaChar d || isSpaceChar d)
     | _ => false)
  | [] => false

/-- The alternatives of the list-introduction skip rule, in source order. -/
def listIntroAlts : List Str :=
  [str "include", str "are", str "following", str "include but are not limited to"]

/-- Skip rule `^[A-Za-z\s]+(include|are|following|include but are not
limited to):$` of `shouldSkipText` (line 225): list introductions ending
with a colon.  The body before the colon must end with one of the
alternatives, preceded by a non-empty run of letters and whitespace. -/
def listIntro (tt : Str) : Bool :=
  match tt.reverse with
  | ':' :: bodyRev =>
    let body := bodyRev.reverse
    listIntroAlts.any (fun alt =>
      alt.isSuffixOf body &&
      decide (alt.length < body.length) &&
      (body.take (body.length - alt.length)).all (fun d => isAlphaChar d || isSpaceChar d))
  | _ => false

/-- Skip rule for bulleted/numbered list items (line 230):
`/^(\d+\.|\*|\-|\•)\s+[A-Za-z]/` tested as a prefix, combined with
`!trimmedText.includes('.', 2)` (no period at index 2 or later). -/
def bulletFragment (tt : Str) : Bool :=
  (let afterMarker : Option Str :=
    match tt with
    | '*' :: r => some r
    | '-' :: r => some r
    | '•' :: r => some r
    | _ =>
      match tt.span isDigitChar with
      | (ds, rest) =>
        if ds.isEmpty then none
        else match rest with
          | '.' :: r => some r
          | _ => none
   match afterMarker with
   | none => false
   | some r =>
     match eatWs1 r with
     | none => false
     | some r2 =>
       match r2 with
       | d :: _ => isAlphaChar d
       | [] => false) &&
  !((tt.drop 2).contains '.')

/-- The closed UI-element vocabulary of `shouldSkipText` (lines 235-240),
matched case-insensitively against the whole trimmed text. -/
def uiVocabulary : List Str :=
  [str "home", str "about", str "contact", str "login", str "signup",
   str "videos", str "menu",
   str "accept", str "decline", str "submit", str "cancel", str "next",
   str "previous",
   str "terms and conditions", str "privacy policy",
   str "skip to content", str "log in", str "sign up"]

/-- UI-element skip test of `shouldSkipText`: one of the `uiPatterns`
regexes `^(...)$/i` matches, i.e. the trimmed text equals one of the
vocabulary entries up to case. -/
def uiElement (tt : Str) : Bool :=
  uiVocabulary.any (fun w => decide (toLowerStr tt = w))

/-- Cookie-consent skip test of `shouldSkipText` (lines 247-249):
co-occurrence of consent vocabulary and site-usage vocabulary. -/
def cookieBanner (tt : Str) : Bool :=
  ([str "cookie", str "consent", str "accept", str "decline", str "privacy"].any
    (fun w => ciContains w tt)) &&
  ([str "website", str "experience", str "browse", str "uses"].any
    (fun w => ciContains w tt))

/-- One alternative of the metadata-line skip test: a case-insensitive
prefix `word1\s+word2:`. -/
def versionAlt (w1 w2 : Str) (tt : Str) : Bool :=
  let low := toLowerStr tt
  w1.isPrefixOf low &&
  (match eatWs1 (low.drop w1.length) with
   | some r => w2.isPrefixOf r
   | none => false)

/-- Metadata-line skip test of `shouldSkipText` (line 253):
`/^Version\s+Date:|^Last\s+Updated:|^Effective\s+Date:/i`. -/
def versionLine (tt : Str) : Bool :=
  versionAlt (str "version") (str "date:") tt ||
  versionAlt (str "last") (str "updated:") tt ||
  versionAlt (str "effective") (str "date:") tt

/-- `GrammarChecker.shouldSkipText` (lines 208-258): the Noise
Classifier's short-circuit chain, evaluated on the trimmed text. -/
def shouldSkipText (text : Str) : Bool :=
  let tt := trim text
  if tt.isEmpty then true
  else if isHeadingOrTitle tt then true
  else if colonHeading tt then true
  else if listIntro tt then true
  else if bulletFragment tt then true
  else if uiElement tt then true
  else if cookieBanner tt then true
  else if versionLine tt then true
  else false

/-- The preposition alternatives of `isPrepositionInHeading`, in source
order. -/
def headingPreps : List Str :=
  [str "of", str "to", str "for", str "with", str "by", str "from",
   str "in", str "on", str "at", str "about"]

/-- First pattern of `isPrepositionInHeading` (line 269):
`^([A-Z][a-z]+\s+){0,2}(of|to|for|with|by|from|in|on|at|about)(\s+[A-Z][a-z]+){1,3}$`,
stated over the whitespace tokens. -/
def prepHeadingOfShape (tt : Str) : Bool :=
  let ts := tokens tt
  [0, 1, 2].any (fun k =>
    decide (k < ts.length) && (ts.take k).all capWord &&
    (match ts.get? k with
     | some w => headingPreps.any (fun p => decide (w = p))
     | none => false) &&
    (let post := ts.drop (k + 1)
     decide (1 ≤ post.length) && decide (post.length ≤ 3) && post.all capWord))

/-- Does a token begin with `[A-Z][a-z]+` (an uppercase letter and at
least one lowercase letter), with arbitrary continuation?  This is the
unanchored tail of the prefix-matched heading patterns. -/
def capWordStart (w : Str) : Bool :=
  match w with
  | c :: d :: _ => isUpperChar c && isLowerChar d
  | _ => false

/-- Second pattern of `isPrepositionInHeading` (line 272):
`^The\s+[A-Z][a-z]+\s+(of|to|...)\s+[A-Z][a-z]+` — a prefix match, stated
over whitespace tokens. -/
def prepHeadingTheShape (tt : Str) : Bool :=
  let ts := tokens tt
  match ts with
  | t0 :: t1 :: t2 :: t3 :: _ =>
    decide (t0 = str "The") && capWord t1 &&
    headingPreps.any (fun p => decide (t2 = p)) && capWordStart t3
  | _ => false

/-- Third pattern of `isPrepositionInHeading` (line 275):
`^How\s+to\s+[A-Z][a-z]+` — a prefix match. -/
def prepHeadingHowShape (tt : Str) : Bool :=
  let ts := tokens tt
  match ts with
  | t0 :: t1 :: t2 :: _ =>
    decide (t0 = str "How") && decide (t1 = str "to") && capWordStart t2
  | _ => false

/-- `GrammarChecker.isPrepositionInHeading` (lines 263-279): heading
shapes containing a preposition, exempt from the hanging-preposition
rule.  The source tests the trimmed text. -/
def isPrepositionInHeading (text : Str) : Bool :=
  let tt := trim text
  prepHeadingOfShape tt || prepHeadingTheShape tt || prepHeadingHowShape tt

/-- Subject words of the subject/auxiliary co-occurrence pattern of
`isContentSentence` (line 411). -/
def subjectWords : List Str :=
  [str "the", str "a", str "an", str "this", str "that", str "these",
   str "those", str "we", str "you", str "they", str "he", str "she",
   str "it", str "i"]

/-- Auxiliary and modal verbs of the subject/auxiliary co-occurrence
pattern of `isContentSentence` (line 411). -/
def auxWords : List Str :=
  [str "am", str "is", str "are", str "was", str "were", str "have",
   str "has", str "had", str "do", str "does", str "did", str "will",
   str "shall", str "may", str "might", str "can", str "could",
   str "would", str "should", str "must"]

/-- The `hasSubjectVerb` test of `isContentSentence` (line 411):
`/\b(the|a|...)\b.*\b(am|is|...)\b/i` — a word-bounded subject occurrence
followed, with no line terminator in between (the `.*` region), by a
word-bounded auxiliary/modal occurrence. -/
def hasSubjectVerb (t : Str) : Bool :=
  (List.range (t.length + 1)).any (fun i =>
    subjectWords.any (fun w =>
      wordAtCI w t i &&
      (List.range (t.length + 1)).any (fun j =>
        auxWords.any (fun v =>
          wordAtCI v t j && decide (i + w.length ≤ j) && noNlBetween t (i + w.length) j))))

/-- The CSS/code vocabulary of `isContentSentence` (line 414). -/
def codeWords : List Str :=
  [str "width", str "height", str "margin", str "padding", str "color",
   str "font", str "grid", str "flex", str "style", str "class",
   str "display", str "position"]

/-- The structural-punctuation class counted by `isContentSentence`
(line 418): the characters of the regex class
left brace, right brace, brackets, parens, `=<>:;$&#%~`, backquote,
`^\|` — built from character codes to keep the scanner happy. -/
def specialChars : List Char :=
  [Char.ofNat 123, Char.ofNat 125, Char.ofNat 91, Char.ofNat 93,
   Char.ofNat 40, Char.ofNat 41, Char.ofNat 61, Char.ofNat 60,
   Char.ofNat 62, Char.ofNat 58, Char.ofNat 59, Char.ofNat 36,
   Char.ofNat 38, Char.ofNat 35, Char.ofNat 37, Char.ofNat 126,
   Char.ofNat 96, Char.ofNat 94, Char.ofNat 92, Char.ofNat 124]

/-- Number of structural-punctuation characters in the text. -/
def specialCount (t : Str) : Nat := (t.filter (fun c => specialChars.contains c)).length

/-- The trailing-colon rejection `/:[^.]?$/.test(text.trim())` of
`isContentSentence` (line 422): the trimmed text ends with a colon, or
with a colon followed by a single non-period character. -/
def colonEndReject (tt : Str) : Bool :=
  match tt.reverse with
  | ':' :: _ => true
  | c :: ':' :: _ => decide (¬(c = '.'))
  | _ => false

/-- `GrammarChecker.isContentSentence` (lines 402-429): the "looks like
real content" test of the Completeness Detector.  Note that the length
and token tests run on the sentence exactly as passed in (untrimmed);
only the colon rejection trims.  The float comparison
`specialChars / text.length < 0.05` is exact for the integer operand
ranges that occur and is embedded as `20 * specialCount < length`. -/
def isContentSentence (text : Str) : Bool :=
  if text.length < 15 then false
  else
    let ws := tokens text
    if ws.length < 4 then false
    else if colonEndReject (trim text) then false
    else
      hasSubjectVerb text ||
      (decide (7 ≤ ws.length) &&
       !(codeWords.any (fun w => containsSub w (toLowerStr text))) &&
       decide (20 * specialCount text < text.length))

/-- The preposition alternatives of the hanging-preposition regex
(line 299), in source order. -/
def hangPreps : List Str :=
  [str "to", str "for", str "with", str "by", str "from", str "in",
   str "on", str "at", str "about", str "upon"]

/-- One attempted match of
`/\b[A-Z][^.!?]{10,}(to|for|with|by|from|in|on|at|about|upon)[^.!?]*$/gm`
(line 299) starting at position `s`.  A match starting at a word-bounded
uppercase letter extends, by greediness of `[^.!?]{10,}` and `[^.!?]*`,
to the last multiline `$` position `E` before the first `[.!?]` after
`s`; it exists precisely when some preposition alternative occurs at a
position `j` with at least ten non-terminator characters between the
uppercase letter and `j` and with the alternative ending no later than
`E`.  Returns `(s, E)`. -/
def p2MatchAt (t : Str) (s : Nat) : Option (Nat × Nat) :=
  match t.get? s with
  | none => none
  | some c =>
    if isUpperChar c && nonWordBefore t s then
      let stop := firstTermFrom t (s + 1)
      match maxLineEnd t (s + 1) stop with
      | none => none
      | some E =>
        if hangPreps.any (fun p =>
             (List.range (E + 1)).any (fun j =>
               decide (s + 11 ≤ j) && decide (j + p.length ≤ E) && substrAt p t j)) then
          some (s, E)
        else none
    else none

/-- The `exec` loop for the hanging-preposition regex: repeatedly take
the leftmost match at or after `lastIndex` and resume after it.  The fuel
bounds the number of iterations; every match strictly advances
`lastIndex`, so `t.length + 1` iterations suffice. -/
def p2Loop (t : Str) : Nat → Nat → List (Nat × Str)
  | 0, _ => []
  | Nat.succ fuel, li =>
    match (List.range' li (t.length - li)).findSome? (fun s => p2MatchAt t s) with
    | none => []
    | some (s, E) => (s, (t.drop s).take (E - s)) :: p2Loop t fuel E

/-- All matches of the `HANGING_PREPOSITION` regex over the whole text,
as (index, matched text) pairs. -/
def p2Matches (t : Str) : List (Nat × Str) := p2Loop t (t.length + 1) 0

/-- The literal of the browser-initiated regex (line 306). -/
def litBI : Str := str "browser-initiated"

/-- Candidate literal position for one match of
`/[^.!?]*\bbrowser-initiated\b[^.!?]*$/gm` starting at `s`: the literal
occurs word-bounded at `k`, only non-terminator characters stand between
`s` and `k`, and a multiline `$` position exists after the literal and
before the next terminator. -/
def p3KOk (t : Str) (s k : Nat) : Bool :=
  decide (s ≤ k) && substrAt litBI t k && nonWordBefore t k &&
  nonWordAfter t (k + litBI.length) &&
  (List.range' s (k - s)).all (fun m =>
    match t.get? m with
    | some c => !isTermChar c
    | none => false) &&
  (maxLineEnd t (k + litBI.length) (firstTermFrom t (k + litBI.length))).isSome

/-- One attempted match of the browser-initiated regex at `s`: by
greediness of the leading `[^.!?]*`, the largest admissible literal
position is used, and the match extends to the last `$` position before
the terminator following the literal. -/
def p3MatchAt (t : Str) (s : Nat) : Option (Nat × Nat) :=
  match ((List.range (t.length + 1)).filter (fun k => p3KOk t s k)).getLast? with
  | none => none
  | some k =>
    (maxLineEnd t (k + litBI.length) (firstTermFrom t (k + litBI.length))).map
      (fun E => (s, E))

/-- The `exec` loop for the browser-initiated regex. -/
def p3Loop (t : Str) : Nat → Nat → List (Nat × Str)
  | 0, _ => []
  | Nat.succ fuel, li =>
    match (List.range' li (t.length + 1 - li)).findSome? (fun s => p3MatchAt t s) with
    | none => []
    | some (s, E) => (s, (t.drop s).take (E - s)) :: p3Loop t fuel (max E (s + 1))

/-- All matches of the `INCOMPLETE_BROWSER_INITIATED` regex. -/
def p3Matches (t : Str) : List (Nat × Str) := p3Loop t (t.length + 1) 0

/-- First alternation of the transitive-verb regex (line 292), in source
order (matched case-insensitively). -/
def p1Alt1 : List Str := [str "please note", str "it is important to note"]

/-- Second alternation of the transitive-verb regex. -/
def p1Alt2 : List Str := [str "do not", str "does not", str "will not", str "cannot"]

/-- Third alternation of the transitive-verb regex. -/
def p1Alt3 : List Str := [str "recognize", str "respond", str "reply", str "acknowledge"]

/-- Tail search for the transitive-verb regex: after the second
alternation ends at `e2`, find the last word-bounded third-alternation
occurrence reachable over a line-terminator-free `.*` region, and return
the last `$` position before the terminator that follows it. -/
def p1TailE (t : Str) (e2 : Nat) : Option Nat :=
  ((List.range (t.length + 1)).filterMap (fun j3 =>
    p1Alt3.findSome? (fun w3 =>
      if decide (e2 ≤ j3) && noNlBetween t e2 j3 && wordAtCI w3 t j3 then
        maxLineEnd t (j3 + w3.length) (firstTermFrom t (j3 + w3.length))
      else none))).getLast?

/-- One attempted match of
`/\b(please note|it is important to note).*\b(do not|does not|will not|cannot)\b.*\b(recognize|respond|reply|acknowledge)\b[^.!?]*$/gim`
(line 292) at `s`: a word-bounded first alternation at `s`, then (by
greediness, taking the latest choices) a word-bounded second and third
alternation further right on the same line, then `[^.!?]*` up to a
multiline `$`. -/
def p1MatchAt (t : Str) (s : Nat) : Option (Nat × Nat) :=
  match p1Alt1.findSome? (fun w =>
      if ciAt w t s && nonWordBefore t s then some w.length else none) with
  | none => none
  | some a1len =>
    match ((List.range (t.length + 1)).filterMap (fun j2 =>
        p1Alt2.findSome? (fun w2 =>
          if decide (s + a1len ≤ j2) && noNlBetween t (s + a1len) j2 && wordAtCI w2 t j2 then
            p1TailE t (j2 + w2.length)
          else none))).getLast? with
    | none => none
    | some E => some (s, E)

/-- The `exec` loop for the transitive-verb regex. -/
def p1Loop (t : Str) : Nat → Nat → List (Nat × Str)
  | 0, _ => []
  | Nat.succ fuel, li =>
    match (List.range' li (t.length - li)).findSome? (fun s => p1MatchAt t s) with
    | none => []
    | some (s, E) => (s, (t.drop s).take (E - s)) :: p1Loop t fuel (max E (s + 1))

/-- All matches of the `INCOMPLETE_TRANSITIVE_VERB` regex. -/
def p1Matches (t : Str) : List (Nat × Str) := p1Loop t (t.length + 1) 0

/-- The rule identifier of transitive-verb findings. -/
def ridTransVerb : Str := str "INCOMPLETE_TRANSITIVE_VERB"

/-- The rule identifier of hanging-preposition findings. -/
def ridHangPrep : Str := str "HANGING_PREPOSITION"

/-- The rule identifier of browser-initiated findings. -/
def ridBrowserInit : Str := str "INCOMPLETE_BROWSER_INITIATED"

/-- The rule identifier of missing-terminal-punctuation findings. -/
def ridMissingEnd : Str := str "MISSING_END_PUNCTUATION"

/-- Processing of one regex match inside the pattern loop of
`checkRegexPatterns` (lines 316-341): trim the match, skip (without
re-adding) fragments already in the processed set, record the fragment,
then apply the heading exemption and — for the hanging-preposition rule
only — the preposition-in-heading exemption, and otherwise report. -/
def regexStep (rule msg sugg : Str) (m : Nat × Str) (st : List Str) :
    Option GrammarError × List Str :=
  let context := trim m.2
  if context ∈ st then (none, st)
  else
    let st1 := context :: st
    if isHeadingOrTitle context then (none, st1)
    else if decide (rule = ridHangPrep) && isPrepositionInHeading context then (none, st1)
    else
      (some
        { message := msg
          context := context
          suggestions := [sugg, str "Add proper punctuation"]
          ruleId := rule
          position := { offset := (m.1 : Int), length := m.2.length } }, st1)

/-- The `while ((match = pattern.regex.exec(text)) !== null)` loop of
`checkRegexPatterns` for one pattern, over its precomputed match list. -/
def regexLoop (rule msg sugg : Str) :
    List (Nat × Str) → List Str → List GrammarError × List Str
  | [], st => ([], st)
  | m :: ms, st =>
    let r1 := regexStep rule msg sugg m st
    let r2 := regexLoop rule msg sugg ms r1.2
    (r1.1.toList ++ r2.1, r2.2)

/-- `GrammarChecker.checkRegexPatterns` (lines 285-345): the Pattern
Matcher.  The three patterns are evaluated in source order against the
whole raw text, sharing the processed-fragment set. -/
def checkRegexPatterns (t : Str) (st : List Str) : List GrammarError × List Str :=
  let r1 := regexLoop ridTransVerb
    (str "Incomplete sentence missing object after transitive verb")
    (str "Complete the sentence by specifying what is recognized or responded to")
    (p1Matches t) st
  let r2 := regexLoop ridHangPrep
    (str "Sentence ends with a preposition")
    (str "Complete the prepositional phrase with an object")
    (p2Matches t) r1.2
  let r3 := regexLoop ridBrowserInit
    (str "Incomplete sentence with \"browser-initiated\"")
    (str "Complete the sentence with what happens with browser-initiated requests/actions")
    (p3Matches t) r2.2
  (r1.1 ++ r2.1 ++ r3.1, r3.2)

/-- Does the trimmed sentence end with terminal punctuation
(`trim().match(/[.!?]$/)`)? -/
def endsTerminal (tt : Str) : Bool :=
  match tt.getLast? with
  | some c => isTermChar c
  | none => false

/-- Processing of one sentence unit inside
`detectIncompleteWithCompromise` (lines 363-393): skip empty or short
units, skip (without re-adding) already processed fragments, record the
fragment, apply the noise and heading filters, and report
`MISSING_END_PUNCTUATION` when terminal punctuation is missing and the
content test passes.  `t` is the whole document (used only for the
best-effort offset). -/
def sentStep (t u : Str) (st : List Str) : Option GrammarError × List Str :=
  let tu := trim u
  if tu.length < 10 then (none, st)
  else if tu ∈ st then (none, st)
  else
    let st1 := tu :: st
    if shouldSkipText u then (none, st1)
    else if isHeadingOrTitle tu then (none, st1)
    else if !endsTerminal tu && isContentSentence u then
      (some
        { message := str "Sentence does not end with proper punctuation"
          context := tu
          suggestions :=
            [str "Add appropriate ending punctuation (period, exclamation mark, or question mark)"]
          ruleId := ridMissingEnd
          position := { offset := indexOfSub u t, length := u.length } }, st1)
    else (none, st1)

/-- The `for (const sentenceText of sentences)` loop of
`detectIncompleteWithCompromise`. -/
def sentLoop (t : Str) : List Str → List Str → List GrammarError × List Str
  | [], st => ([], st)
  | u :: us, st =>
    let r1 := sentStep t u st
    let r2 := sentLoop t us r1.2
    (r1.1.toList ++ r2.1, r2.2)

/-- `GrammarChecker.detectIncompleteWithCompromise` (lines 351-396): the
Completeness Detector.  The sentence list is produced in the source by
the external `compromise` NLP library (`nlp(text).sentences()`), which is
not part of this repository; it enters here as the parameter `seg`.
When `detectIncomplete` is disabled the method returns immediately,
leaving the processed-fragment set untouched. -/
def detectIncompleteWithCompromise (seg : Str → List Str) (opts : CheckerOptions)
    (t : Str) (st : List Str) : List GrammarError × List Str :=
  if !opts.detectIncomplete then ([], st)
  else sentLoop t (seg t) st

/-- The raw detected error list of `checkPage` (lines 93-101): the
Completeness Detector's findings followed by the Pattern Matcher's
findings, sharing the processed-fragment set. -/
def detectedErrors (seg : Str → List Str) (opts : CheckerOptions) (t : Str)
    (st : List Str) : List GrammarError × List Str :=
  let r1 := detectIncompleteWithCompromise seg opts t st
  let r2 := checkRegexPatterns t r1.2
  (r1.1 ++ r2.1, r2.2)

/-- The composite deduplication key of `deduplicateErrors` (line 123):
`trimmed context ++ "|" ++ ruleId`. -/
def dedupKey (e : GrammarError) : Str := trim e.context ++ ('|' :: e.ruleId)

/-- `GrammarChecker.deduplicateErrors` (lines 117-132): keep the first
error for every composite (trimmed context, ruleId) key. -/
def deduplicateErrors (seen : List Str) : List GrammarError → List GrammarError
  | [] => []
  | e :: rest =>
    if dedupKey e ∈ seen then deduplicateErrors seen rest
    else e :: deduplicateErrors (dedupKey e :: seen) rest

/-- The text-analysis part of `GrammarChecker.checkPage` (lines 88-112).
Navigation and HTML extraction (`extractText`) are external collaborators
(spec section 1); the extracted text enters as `t`.  The processed
fragment set `st` is the instance's `processedFragments` field, returned
updated because the field persists on the instance. -/
def checkPage (seg : Str → List Str) (opts : CheckerOptions) (st : List Str)
    (url t : Str) : CheckResult × List Str :=
  let r := detectedErrors seg opts t st
  let uniqueErrors := deduplicateErrors [] r.1
  ({ url := url
     totalErrors := uniqueErrors.length
     errors := uniqueErrors
     rawText := t }, r.2)

/-- Line splitter: cut a string at every `'\n'`. -/
def splitNl : Str → List Str
  | [] => [[]]
  | c :: rest =>
    if c = '\n' then [] :: splitNl rest
    else
      match splitNl rest with
      | l :: ls => (c :: l) :: ls
      | [] => [[c]]

/-- Group a line list into paragraphs: empty lines are separators. -/
def groupLines : List Str → List (List Str)
  | [] => [[]]
  | l :: rest =>
    if l.isEmpty then [] :: groupLines rest
    else
      match groupLines rest with
      | g :: gs => (l :: g) :: gs
      | [] => [[l]]

/-- Accumulator pass cutting a paragraph into sentence-like spans: each
span ends at a `.`, `!` or `?` (terminator included), and a trailing
residue without terminal punctuation becomes its own unit. -/
def sentSpansAux : Str → Str → List Str
  | [], cur => if cur.isEmpty then [] else [cur.reverse]
  | c :: rest, cur =>
    if isTermChar c then (c :: cur).reverse :: sentSpansAux rest []
    else sentSpansAux rest (c :: cur)

/-- Sentence-like spans of one paragraph. -/
def sentSpans (p : Str) : List Str := sentSpansAux p []

/-- Rejoin the lines of a paragraph with the newline characters the line
splitter removed. -/
def joinNl : List Str → Str
  | [] => []
  | [l] => l
  | l :: ls => l ++ '\n' :: joinNl ls

/-- Modelled from the spec: the Segmenter of spec section 4.1.  The
source delegates sentence segmentation to the external `compromise` NLP
library (`nlp(text).sentences().out('array')`), which is not part of
this repository; this model follows the spec's words: split the document
on blank-line boundaries into paragraphs, discard paragraphs that are
empty after trimming, and cut each paragraph into spans terminated by
`.`, `!` or `?` plus a trailing unterminated residue, preserving order. -/
def segmentSpec (t : Str) : List Str :=
  (((groupLines (splitNl t)).map joinNl).filter
    (fun p => !(trim p).isEmpty)).flatMap sentSpans

/-- Scenario input of testable property "Scenario 1" (spec section 8). -/
def scenario1Text : Str :=
  str "Contact Us\n\nWe appreciate your business. Please visit our site to"

/-- A single-fragment input whose whole text is a hanging-preposition
match and whose sole sentence unit fails the content test. -/
def supportText : Str := str "We depend on your support to"

/-- A single-line input containing both a hanging-preposition match and a
strictly larger browser-initiated match. -/
def browserText : Str := str "in fact We depend on browser-initiated things to"

/-- A sentence unit whose trimmed form ends in a colon followed by one
non-period character. -/
def colonUnit : Str := str "we think that this is really quite good :p"

/-- A sentence unit that passes the content test. -/
def contentUnit : Str := str "we believe that you should go there tomorrow"

/-! Lemmas.  Everything below is proof; the embedding is complete above. -/

theorem trim_eq_rdrop (l : Str) :
    trim l = List.rdropWhile isSpaceChar (l.dropWhile isSpaceChar) := rfl

theorem dropWhile_eq_self_of_lead (p : Char → Bool) (m r : Str)
    (hpre : r <+: List.dropWhile p m) : List.dropWhile p r = r := by
  cases r with
  | nil => rfl
  | cons a rest =>
    obtain ⟨t, ht⟩ := hpre
    have hh := List.head?_dropWhile_not p m
    rw [← ht] at hh
    simp only [List.cons_append, List.head?_cons] at hh
    simp [List.dropWhile_cons, hh]

theorem trim_trim (l : Str) : trim (trim l) = trim l := by
  rw [trim_eq_rdrop, trim_eq_rdrop]
  rw [dropWhile_eq_self_of_lead isSpaceChar l _ (List.rdropWhile_prefix _ _),
    List.rdropWhile_idempotent]

theorem deduplicateErrors_sublist (seen : List Str) (l : List GrammarError) :
    List.Sublist (deduplicateErrors seen l) l := by
  induction l generalizing seen with
  | nil => simp [deduplicateErrors]
  | cons e rest ih =>
    unfold deduplicateErrors
    split
    · exact (ih seen).cons e
    · exact (ih (dedupKey e :: seen)).cons₂ e

theorem deduplicateErrors_key_mem (seen : List Str) (l : List GrammarError) (k : Str) :
    k ∈ (deduplicateErrors seen l).map dedupKey ↔ (k ∈ l.map dedupKey ∧ k ∉ seen) := by
  induction l generalizing seen with
  | nil => simp [deduplicateErrors]
  | cons e rest ih =>
    unfold deduplicateErrors
    split
    · rename_i hmem
      rw [ih, List.map_cons]
      constructor
      · rintro ⟨h1, h2⟩
        exact ⟨List.mem_cons_of_mem _ h1, h2⟩
      · rintro ⟨h1, h2⟩
        rcases List.mem_cons.mp h1 with rfl | h12
        · exact absurd hmem h2
        · exact ⟨h12, h2⟩
    · rename_i hmem
      rw [List.map_cons, List.map_cons]
      constructor
      · intro hk
        rcases List.mem_cons.mp hk with rfl | hk2
        · exact ⟨List.mem_cons_self _ _, hmem⟩
        · obtain ⟨h1, h2⟩ := (ih _).mp hk2
          exact ⟨List.mem_cons_of_mem _ h1, fun hks => h2 (List.mem_cons_of_mem _ hks)⟩
      · rintro ⟨h1, h2⟩
        rcases List.mem_cons.mp h1 with rfl | h12
        · exact List.mem_cons_self _ _
        · by_cases hke : k = dedupKey e
          · exact hke ▸ List.mem_cons_self _ _
          · exact List.mem_cons_of_mem _ ((ih _).mpr ⟨h12,
              fun hks => (List.mem_cons.mp hks).elim hke h2⟩)

theorem deduplicateErrors_key_nodup (seen : List Str) (l : List GrammarError) :
    ((deduplicateErrors seen l).map dedupKey).Nodup ∧
    ∀ k ∈ (deduplicateErrors seen l).map dedupKey, k ∉ seen := by
  induction l generalizing seen with
  | nil => simp [deduplicateErrors]
  | cons e rest ih =>
    unfold deduplicateErrors
    split
    · exact ih seen
    · rename_i hmem
      obtain ⟨hnd, hnot⟩ := ih (dedupKey e :: seen)
      refine ⟨?_, ?_⟩
      · simp only [List.map_cons, List.nodup_cons]
        exact ⟨fun hk => (hnot _ hk) (List.mem_cons_self _ _), hnd⟩
      · intro k hk
        simp only [List.map_cons, List.mem_cons] at hk
        rcases hk with rfl | hk
        · exact hmem
        · exact fun hks => (hnot _ hk) (List.mem_cons_of_mem _ hks)

theorem sep_append_inj {c1 c2 r1 r2 : Str} (h1 : '|' ∉ r1) (h2 : '|' ∉ r2)
    (h : c1 ++ '|' :: r1 = c2 ++ '|' :: r2) : c1 = c2 ∧ r1 = r2 := by
  induction c1 generalizing c2 with
  | nil =>
    cases c2 with
    | nil => simpa using h
    | cons b t =>
      simp only [List.nil_append, List.cons_append, List.cons.injEq] at h
      obtain ⟨hb, hr⟩ := h
      exact absurd (by rw [hr]; exact List.mem_append_right t (List.mem_cons_self '|' r2)) h1
  | cons a s ih =>
    cases c2 with
    | nil =>
      simp only [List.cons_append, List.nil_append, List.cons.injEq] at h
      obtain ⟨ha, hr⟩ := h
      exact absurd (by rw [← hr]; exact List.mem_append_right s (List.mem_cons_self '|' r1)) h2
    | cons b t =>
      simp only [List.cons_append, List.cons.injEq] at h
      obtain ⟨rfl, h⟩ := h
      obtain ⟨hc, hr⟩ := ih h
      exact ⟨by rw [hc], hr⟩

theorem sentStep_mono (t u : Str) (st : List Str) :
    ∀ x ∈ st, x ∈ (sentStep t u st).2 := by
  intro x hx
  simp only [sentStep]
  repeat' split
  all_goals first
    | exact hx
    | exact List.mem_cons_of_mem _ hx

theorem sentStep_some (t u : Str) (st : List Str) (e : GrammarError)
    (h : (sentStep t u st).1 = some e) :
    e.context = trim u ∧ (sentStep t u st).2 = e.context :: st ∧ e.context ∉ st ∧
    isHeadingOrTitle e.context = false ∧ e.ruleId = ridMissingEnd ∧
    trim e.context = e.context ∧
    e.suggestions = [str "Add appropriate ending punctuation (period, exclamation mark, or question mark)"] := by
  simp only [sentStep] at h ⊢
  split at h
  · simp at h
  · split at h
    · simp at h
    · split at h
      · simp at h
      · split at h
        · simp at h
        · split at h
          · rw [Option.some.injEq] at h
            subst h
            rename_i h1 h2 h3 h4 h5
            refine ⟨rfl, ?_, h2, ?_, rfl, trim_trim u, rfl⟩
            · rw [if_neg h1, if_neg h2, if_neg h3, if_neg h4, if_pos h5]
            · exact Bool.eq_false_iff.mpr h4
          · simp at h

theorem sentLoop_inv (t : Str) (us : List Str) (st : List Str) :
    (∀ x ∈ st, x ∈ (sentLoop t us st).2) ∧
    (∀ e ∈ (sentLoop t us st).1,
      trim e.context = e.context ∧ e.context ∈ (sentLoop t us st).2 ∧ e.context ∉ st ∧
      isHeadingOrTitle e.context = false ∧ e.ruleId = ridMissingEnd) ∧
    ((sentLoop t us st).1.map (fun e => e.context)).Nodup := by
  induction us generalizing st with
  | nil => simp [sentLoop]
  | cons u us ih =>
    have hmono1 := sentStep_mono t u st
    obtain ⟨ih1, ih2, ih3⟩ := ih (sentStep t u st).2
    rcases hr : (sentStep t u st).1 with _ | e0
    · have hres : sentLoop t (u :: us) st = sentLoop t us (sentStep t u st).2 := by
        simp only [sentLoop, hr, Option.toList_none, List.nil_append]
      rw [hres]
      refine ⟨fun x hx => ih1 x (hmono1 x hx), fun e he => ?_, ih3⟩
      obtain ⟨ha, hb, hc, hd, hrule⟩ := ih2 e he
      exact ⟨ha, hb, fun hcs => hc (hmono1 _ hcs), hd, hrule⟩
    · obtain ⟨hctx, hst, hnotin, hhead, hrule, htrim, hsugg⟩ := sentStep_some t u st e0 hr
      have hres1 : (sentLoop t (u :: us) st).1 = e0 :: (sentLoop t us (sentStep t u st).2).1 := by
        simp only [sentLoop, hr, Option.toList_some, List.cons_append, List.nil_append]
      have hres2 : (sentLoop t (u :: us) st).2 = (sentLoop t us (sentStep t u st).2).2 := by
        simp only [sentLoop, hr]
      refine ⟨fun x hx => hres2 ▸ ih1 x (hmono1 x hx), ?_, ?_⟩
      · intro e he
        rw [hres1] at he
        rcases List.mem_cons.mp he with rfl | he2
        · exact ⟨htrim, hres2 ▸ ih1 _ (hst ▸ List.mem_cons_self _ _), hnotin, hhead, hrule⟩
        · obtain ⟨ha, hb, hc, hd, hrule2⟩ := ih2 e he2
          refine ⟨ha, hres2 ▸ hb, fun hcs => hc (hmono1 _ hcs), hd, hrule2⟩
      · rw [hres1, List.map_cons, List.nodup_cons]
        refine ⟨fun hmem => ?_, ih3⟩
        obtain ⟨e1, he1, heq⟩ := List.mem_map.mp hmem
        obtain ⟨_, _, hc, _, _⟩ := ih2 e1 he1
        exact hc (heq ▸ hst ▸ List.mem_cons_self _ _)

theorem regexStep_mono (rule msg sugg : Str) (m : Nat × Str) (st : List Str) :
    ∀ x ∈ st, x ∈ (regexStep rule msg sugg m st).2 := by
  intro x hx
  simp only [regexStep]
  repeat' split
  all_goals first
    | exact hx
    | exact List.mem_cons_of_mem _ hx

theorem regexStep_some (rule msg sugg : Str) (m : Nat × Str) (st : List Str)
    (e : GrammarError) (h : (regexStep rule msg sugg m st).1 = some e) :
    e.context = trim m.2 ∧ (regexStep rule msg sugg m st).2 = e.context :: st ∧
    e.context ∉ st ∧ isHeadingOrTitle e.context = false ∧ e.ruleId = rule ∧
    trim e.context = e.context := by
  simp only [regexStep] at h ⊢
  split at h
  · simp at h
  · split at h
    · simp at h
    · split at h
      · simp at h
      · rw [Option.some.injEq] at h
        subst h
        rename_i h1 h2 h3
        refine ⟨rfl, ?_, h1, Bool.eq_false_iff.mpr h2, rfl, trim_trim m.2⟩
        rw [if_neg h1, if_neg h2, if_neg h3]

theorem regexLoop_inv (rule msg sugg : Str) (ms : List (Nat × Str)) (st : List Str) :
    (∀ x ∈ st, x ∈ (regexLoop rule msg sugg ms st).2) ∧
    (∀ e ∈ (regexLoop rule msg sugg ms st).1,
      trim e.context = e.context ∧ e.context ∈ (regexLoop rule msg sugg ms st).2 ∧
      e.context ∉ st ∧ isHeadingOrTitle e.context = false ∧ e.ruleId = rule) ∧
    ((regexLoop rule msg sugg ms st).1.map (fun e => e.context)).Nodup := by
  induction ms generalizing st with
  | nil => simp [regexLoop]
  | cons m ms ih =>
    have hmono1 := regexStep_mono rule msg sugg m st
    obtain ⟨ih1, ih2, ih3⟩ := ih (regexStep rule msg sugg m st).2
    rcases hr : (regexStep rule msg sugg m st).1 with _ | e0
    · have hres : regexLoop rule msg sugg (m :: ms) st
          = regexLoop rule msg sugg ms (regexStep rule msg sugg m st).2 := by
        simp only [regexLoop, hr, Option.toList_none, List.nil_append]
      rw [hres]
      refine ⟨fun x hx => ih1 x (hmono1 x hx), fun e he => ?_, ih3⟩
      obtain ⟨ha, hb, hc, hd, hrule⟩ := ih2 e he
      exact ⟨ha, hb, fun hcs => hc (hmono1 _ hcs), hd, hrule⟩
    · obtain ⟨hctx, hst, hnotin, hhead, hrule, htrim⟩ := regexStep_some rule msg sugg m st e0 hr
      have hres1 : (regexLoop rule msg sugg (m :: ms) st).1
          = e0 :: (regexLoop rule msg sugg ms (regexStep rule msg sugg m st).2).1 := by
        simp only [regexLoop, hr, Option.toList_some, List.cons_append, List.nil_append]
      have hres2 : (regexLoop rule msg sugg (m :: ms) st).2
          = (regexLoop rule msg sugg ms (regexStep rule msg sugg m st).2).2 := by
        simp only [regexLoop, hr]
      refine ⟨fun x hx => hres2 ▸ ih1 x (hmono1 x hx), ?_, ?_⟩
      · intro e he
        rw [hres1] at he
        rcases List.mem_cons.mp he with rfl | he2
        · exact ⟨htrim, hres2 ▸ ih1 _ (hst ▸ List.mem_cons_self _ _), hnotin, hhead, hrule⟩
        · obtain ⟨ha, hb, hc, hd, hrule2⟩ := ih2 e he2
          refine ⟨ha, hres2 ▸ hb, fun hcs => hc (hmono1 _ hcs), hd, hrule2⟩
      · rw [hres1, List.map_cons, List.nodup_cons]
        refine ⟨fun hmem => ?_, ih3⟩
        obtain ⟨e1, he1, heq⟩ := List.mem_map.mp hmem
        obtain ⟨_, _, hc, _, _⟩ := ih2 e1 he1
        exact hc (heq ▸ hst ▸ List.mem_cons_self _ _)

theorem checkRegexPatterns_inv (t : Str) (st : List Str) :
    (∀ x ∈ st, x ∈ (checkRegexPatterns t st).2) ∧
    (∀ e ∈ (checkRegexPatterns t st).1,
      trim e.context = e.context ∧ e.context ∈ (checkRegexPatterns t st).2 ∧
      e.context ∉ st ∧ isHeadingOrTitle e.context = false ∧
      (e.ruleId = ridTransVerb ∨ e.ruleId = ridHangPrep ∨ e.ruleId = ridBrowserInit)) ∧
    ((checkRegexPatterns t st).1.map (fun e => e.context)).Nodup := by
  obtain ⟨a1, b1, c1⟩ := regexLoop_inv ridTransVerb
    (str "Incomplete sentence missing object after transitive verb")
    (str "Complete the sentence by specifying what is recognized or responded to")
    (p1Matches t) st
  obtain ⟨a2, b2, c2⟩ := regexLoop_inv ridHangPrep
    (str "Sentence ends with a preposition")
    (str "Complete the prepositional phrase with an object")
    (p2Matches t) _
  obtain ⟨a3, b3, c3⟩ := regexLoop_inv ridBrowserInit
    (str "Incomplete sentence with \"browser-initiated\"")
    (str "Complete the sentence with what happens with browser-initiated requests/actions")
    (p3Matches t) _
  simp only [checkRegexPatterns]
  refine ⟨fun x hx => a3 x (a2 x (a1 x hx)), fun e he => ?_, ?_⟩
  · rcases List.mem_append.mp he with he12 | he3
    · rcases List.mem_append.mp he12 with he1 | he2
      · obtain ⟨ha, hb, hc, hd, hr⟩ := b1 e he1
        exact ⟨ha, a3 _ (a2 _ hb), hc, hd, Or.inl hr⟩
      · obtain ⟨ha, hb, hc, hd, hr⟩ := b2 e he2
        exact ⟨ha, a3 _ hb, fun hcs => hc (a1 _ hcs), hd, Or.inr (Or.inl hr)⟩
    · obtain ⟨ha, hb, hc, hd, hr⟩ := b3 e he3
      exact ⟨ha, hb, fun hcs => hc (a2 _ (a1 _ hcs)), hd, Or.inr (Or.inr hr)⟩
  · rw [List.map_append, List.map_append]
    refine List.Nodup.append (List.Nodup.append c1 c2 ?_) c3 ?_
    · intro a ha1 ha2
      obtain ⟨e1, he1, heq1⟩ := List.mem_map.mp ha1
      obtain ⟨e2, he2, heq2⟩ := List.mem_map.mp ha2
      obtain ⟨_, hb1, _, _, _⟩ := b1 e1 he1
      obtain ⟨_, _, hc2, _, _⟩ := b2 e2 he2
      exact hc2 (heq2 ▸ heq1 ▸ hb1)
    · intro a ha12 ha3
      obtain ⟨e3, he3, heq3⟩ := List.mem_map.mp ha3
      obtain ⟨_, _, hc3, _, _⟩ := b3 e3 he3
      rcases List.mem_append.mp ha12 with ha1 | ha2
      · obtain ⟨e1, he1, heq1⟩ := List.mem_map.mp ha1
        obtain ⟨_, hb1, _, _, _⟩ := b1 e1 he1
        exact hc3 (heq3 ▸ heq1 ▸ a2 _ hb1)
      · obtain ⟨e2, he2, heq2⟩ := List.mem_map.mp ha2
        obtain ⟨_, hb2, _, _, _⟩ := b2 e2 he2
        exact hc3 (heq3 ▸ heq2 ▸ hb2)

theorem detectIncomplete_inv (seg : Str → List Str) (opts : CheckerOptions) (t : Str) (st : List Str) :
    (∀ x ∈ st, x ∈ (detectIncompleteWithCompromise seg opts t st).2) ∧
    (∀ e ∈ (detectIncompleteWithCompromise seg opts t st).1,
      trim e.context = e.context ∧
      e.context ∈ (detectIncompleteWithCompromise seg opts t st).2 ∧ e.context ∉ st ∧
      isHeadingOrTitle e.context = false ∧ e.ruleId = ridMissingEnd) ∧
    ((detectIncompleteWithCompromise seg opts t st).1.map (fun e => e.context)).Nodup := by
  simp only [detectIncompleteWithCompromise]
  split
  · simp
  · exact sentLoop_inv t (seg t) st

theorem detectedErrors_inv (seg : Str → List Str) (opts : CheckerOptions) (t : Str) (st : List Str) :
    (∀ e ∈ (detectedErrors seg opts t st).1,
      trim e.context = e.context ∧ e.context ∉ st ∧ isHeadingOrTitle e.context = false ∧
      (e.ruleId = ridMissingEnd ∨ e.ruleId = ridTransVerb ∨ e.ruleId = ridHangPrep ∨
       e.ruleId = ridBrowserInit)) ∧
    ((detectedErrors seg opts t st).1.map (fun e => e.context)).Nodup := by
  obtain ⟨a1, b1, c1⟩ := detectIncomplete_inv seg opts t st
  obtain ⟨a2, b2, c2⟩ := checkRegexPatterns_inv t (detectIncompleteWithCompromise seg opts t st).2
  simp only [detectedErrors]
  refine ⟨fun e he => ?_, ?_⟩
  · rcases List.mem_append.mp he with he1 | he2
    · obtain ⟨ha, hb, hc, hd, hr⟩ := b1 e he1
      exact ⟨ha, hc, hd, Or.inl hr⟩
    · obtain ⟨ha, hb, hc, hd, hr⟩ := b2 e he2
      exact ⟨ha, fun hcs => hc (a1 _ hcs), hd, Or.inr hr⟩
  · rw [List.map_append]
    refine List.Nodup.append c1 c2 ?_
    intro a ha1 ha2
    obtain ⟨e1, he1, heq1⟩ := List.mem_map.mp ha1
    obtain ⟨e2, he2, heq2⟩ := List.mem_map.mp ha2
    obtain ⟨_, hb1, _, _, _⟩ := b1 e1 he1
    obtain ⟨_, _, hc2, _, _⟩ := b2 e2 he2
    exact hc2 (heq2 ▸ heq1 ▸ hb1)

theorem checkPage_errors_inv (seg : Str → List Str) (opts : CheckerOptions)
    (st : List Str) (url t : Str) :
    (∀ e ∈ (checkPage seg opts st url t).1.errors,
      trim e.context = e.context ∧ e.context ∉ st ∧ isHeadingOrTitle e.context = false ∧
      (e.ruleId = ridMissingEnd ∨ e.ruleId = ridTransVerb ∨ e.ruleId = ridHangPrep ∨
       e.ruleId = ridBrowserInit)) ∧
    ((checkPage seg opts st url t).1.errors.map (fun e => e.context)).Nodup := by
  obtain ⟨hb, hnd⟩ := detectedErrors_inv seg opts t st
  have hsub : List.Sublist (checkPage seg opts st url t).1.errors
      (detectedErrors seg opts t st).1 := by
    simp only [checkPage]
    exact deduplicateErrors_sublist [] _
  exact ⟨fun e he => hb e (hsub.subset he), (hsub.map _).nodup hnd⟩

/-- C10: within a single analysis run, no two errors in the final output
share the same trimmed context, even when their ruleIds differ — every
candidate fragment passes through the shared processed-fragment set
before any detector may report it, so cross-detector deduplication is
strictly stronger than distinctness of (context, ruleId) pairs. -/
theorem final_contexts_nodup (seg : Str → List Str) (opts : CheckerOptions)
    (st : List Str) (url t : Str) :
    ((checkPage seg opts st url t).1.errors.map (fun e => trim e.context)).Nodup := by
  obtain ⟨hb, hnd⟩ := checkPage_errors_inv seg opts st url t
  have hmap : (checkPage seg opts st url t).1.errors.map (fun e => trim e.context)
      = (checkPage seg opts st url t).1.errors.map (fun e => e.context) :=
    List.map_congr_left (fun e he => (hb e he).1)
  rw [hmap]
  exact hnd

/-- C2 (amended): within one run, once a fragment has been accepted, any
later candidate whose trimmed text exactly equals the accepted fragment's
trimmed text is never separately reported, across detectors; hence the
reported errors carry pairwise distinct trimmed contexts.  (The claimed
substring/superstring containment suppression does not hold, see the
counterexample.) -/
theorem exact_duplicate_suppression (seg : Str → List Str) (opts : CheckerOptions)
    (st : List Str) (url t : Str) :
    List.Pairwise (fun a b => trim a.context ≠ trim b.context)
      (checkPage seg opts st url t).1.errors := by
  obtain ⟨hb, hnd⟩ := checkPage_errors_inv seg opts st url t
  have hpw : List.Pairwise (fun a b => a.context ≠ b.context)
      (checkPage seg opts st url t).1.errors := List.pairwise_map.mp hnd
  refine hpw.imp_of_mem ?_
  intro a b ha hb2 hne
  rw [(hb a ha).1, (hb b hb2).1]
  exact hne

/-- C6: heading exemption — no error in the output of an analysis run
carries a context recognised by the heading/title classifier; both the
sentence-level detector and the whole-text pattern matcher re-check
every candidate against `isHeadingOrTitle` before accepting it. -/
theorem heading_never_context (seg : Str → List Str) (opts : CheckerOptions)
    (st : List Str) (url t : Str) :
    ∀ e ∈ (checkPage seg opts st url t).1.errors, isHeadingOrTitle e.context = false :=
  fun e he => ((checkPage_errors_inv seg opts st url t).1 e he).2.2.1

/-- C7 (amended): the processed-fragment set is per checker instance, not
per run — a fragment already in the set at the start of a run is never
reported as a context by that run (so earlier runs on the same instance
suppress later runs' findings), while the analysis itself is a pure
function of the options, the incoming set and the text, making two runs
from a fresh instance over identical input produce identical ordered
error lists. -/
theorem run_state_suppression (seg : Str → List Str) (opts : CheckerOptions)
    (st : List Str) (url t : Str) :
    ∀ e ∈ (checkPage seg opts st url t).1.errors, e.context ∉ st :=
  fun e he => ((checkPage_errors_inv seg opts st url t).1 e he).2.1

/-- C1: for every input, `totalErrors` equals `errors.length`, the final
errors carry pairwise distinct (trimmed context, ruleId) pairs, and the
number of final errors equals the number of distinct (trimmed context,
ruleId) pairs among the raw detected errors. -/
theorem checkPage_total_errors_distinct_pairs (seg : Str → List Str)
    (opts : CheckerOptions) (st : List Str) (url t : Str) :
    (checkPage seg opts st url t).1.totalErrors
      = (checkPage seg opts st url t).1.errors.length ∧
    ((checkPage seg opts st url t).1.errors.map
      (fun e => (trim e.context, e.ruleId))).Nodup ∧
    (checkPage seg opts st url t).1.errors.length
      = ((detectedErrors seg opts t st).1.map
          (fun e => (trim e.context, e.ruleId))).toFinset.card := by
  refine ⟨rfl, ?_, ?_⟩
  · have k1 := (deduplicateErrors_key_nodup [] (detectedErrors seg opts t st).1).1
    have hmm : (deduplicateErrors [] (detectedErrors seg opts t st).1).map dedupKey
        = ((deduplicateErrors [] (detectedErrors seg opts t st).1).map
            (fun e => (trim e.context, e.ruleId))).map
            (fun pr : Str × Str => pr.1 ++ '|' :: pr.2) := by
      rw [List.map_map]
      rfl
    rw [hmm] at k1
    have : ((checkPage seg opts st url t).1.errors.map
        (fun e => (trim e.context, e.ruleId)))
        = ((deduplicateErrors [] (detectedErrors seg opts t st).1).map
            (fun e => (trim e.context, e.ruleId))) := rfl
    rw [this]
    exact k1.of_map _
  · have k1 := (deduplicateErrors_key_nodup [] (detectedErrors seg opts t st).1).1
    have k2 : ∀ k, k ∈ (deduplicateErrors [] (detectedErrors seg opts t st).1).map dedupKey
        ↔ k ∈ (detectedErrors seg opts t st).1.map dedupKey := by
      intro k
      simpa using deduplicateErrors_key_mem [] (detectedErrors seg opts t st).1 k
    have herrs : (checkPage seg opts st url t).1.errors
        = deduplicateErrors [] (detectedErrors seg opts t st).1 := rfl
    rw [herrs]
    have l1 : (deduplicateErrors [] (detectedErrors seg opts t st).1).length
        = ((deduplicateErrors [] (detectedErrors seg opts t st).1).map dedupKey).length :=
      (List.length_map _ _).symm
    rw [l1, ← List.toFinset_card_of_nodup k1]
    have hfeq : ((deduplicateErrors [] (detectedErrors seg opts t st).1).map dedupKey).toFinset
        = ((detectedErrors seg opts t st).1.map dedupKey).toFinset := by
      apply Finset.ext
      intro k
      simp only [List.mem_toFinset]
      exact k2 k
    rw [hfeq]
    have hsplit : (detectedErrors seg opts t st).1.map dedupKey
        = ((detectedErrors seg opts t st).1.map
            (fun e => (trim e.context, e.ruleId))).map
            (fun pr : Str × Str => pr.1 ++ '|' :: pr.2) := by
      rw [List.map_map]
      rfl
    have himg : ((((detectedErrors seg opts t st).1.map
          (fun e => (trim e.context, e.ruleId))).map
          (fun pr : Str × Str => pr.1 ++ '|' :: pr.2)).toFinset)
        = (((detectedErrors seg opts t st).1.map
            (fun e => (trim e.context, e.ruleId))).toFinset).image
            (fun pr : Str × Str => pr.1 ++ '|' :: pr.2) := by
      apply Finset.ext
      intro k
      simp only [List.mem_toFinset, Finset.mem_image, List.mem_map]
    rw [hsplit, himg, Finset.card_image_of_injOn]
    intro p hp q hq heq
    simp only [Finset.coe_image, Set.mem_image, Finset.mem_coe, List.mem_toFinset,
      List.mem_map] at hp hq
    obtain ⟨e1, he1, hpe⟩ := hp
    obtain ⟨e2, he2, hqe⟩ := hq
    have hr1 := ((detectedErrors_inv seg opts t st).1 e1 he1).2.2.2
    have hr2 := ((detectedErrors_inv seg opts t st).1 e2 he2).2.2.2
    have hrid : ∀ r : Str,
        (r = ridMissingEnd ∨ r = ridTransVerb ∨ r = ridHangPrep ∨ r = ridBrowserInit) →
        '|' ∉ r := by
      rintro r (rfl | rfl | rfl | rfl) <;> decide
    have hp2 : '|' ∉ p.2 := by
      rw [← hpe]
      exact hrid e1.ruleId hr1
    have hq2 : '|' ∉ q.2 := by
      rw [← hqe]
      exact hrid e2.ruleId hr2
    obtain ⟨ha, hb⟩ := sep_append_inj hp2 hq2 heq
    exact Prod.ext ha hb

theorem isContentSentence_iff (u : Str) :
    isContentSentence u = true ↔
      (15 ≤ u.length ∧ 4 ≤ (tokens u).length ∧ colonEndReject (trim u) = false ∧
       (hasSubjectVerb u = true ∨
        (7 ≤ (tokens u).length ∧
         (codeWords.any fun w => containsSub w (toLowerStr u)) = false ∧
         20 * specialCount u < u.length))) := by
  simp only [isContentSentence]
  by_cases h15 : u.length < 15
  · rw [if_pos h15]
    simp only [Bool.false_eq_true, false_iff]
    rintro ⟨h, _⟩
    omega
  · rw [if_neg h15]
    by_cases h4 : (tokens u).length < 4
    · rw [if_pos h4]
      simp only [Bool.false_eq_true, false_iff]
      rintro ⟨_, h, _⟩
      omega
    · rw [if_neg h4]
      by_cases hcol : colonEndReject (trim u) = true
      · rw [if_pos hcol]
        simp only [Bool.false_eq_true, false_iff]
        rintro ⟨_, _, hcr, _⟩
        rw [hcol] at hcr
        exact Bool.true_eq_false.mp hcr
      · rw [if_neg hcol]
        simp only [Bool.or_eq_true, Bool.and_eq_true, decide_eq_true_eq, Bool.not_eq_true']
        constructor
        · rintro (hsv | ⟨⟨h7, hcode⟩, hsp⟩)
          · exact ⟨by omega, by omega, Bool.eq_false_iff.mpr hcol, Or.inl hsv⟩
          · exact ⟨by omega, by omega, Bool.eq_false_iff.mpr hcol, Or.inr ⟨h7, hcode, hsp⟩⟩
        · rintro ⟨_, _, _, hsv | ⟨h7, hcode, hsp⟩⟩
          · exact Or.inl hsv
          · exact Or.inr ⟨⟨h7, hcode⟩, hsp⟩

/-- C5 (amended): for a sentence unit surviving the noise filters, a
`MISSING_END_PUNCTUATION` error is emitted if and only if the trimmed
unit lacks terminal punctuation and the content test passes — length of
the unit at least 15 characters, at least 4 whitespace tokens, the
trimmed unit not matching the source's trailing-colon rejection (a colon
as last character, or as second-to-last followed by one non-period
character; this is broader than "does not end in a colon"), and either
the subject/auxiliary co-occurrence pattern or (at least 7 tokens,
special-character density below 5%, and no code-vocabulary word).  Any
emitted error carries exactly the one fixed suggestion. -/
theorem missing_end_punctuation_iff (t u : Str) (st : List Str)
    (h10 : 10 ≤ (trim u).length) (hst : trim u ∉ st)
    (hskip : shouldSkipText u = false) (hhead : isHeadingOrTitle (trim u) = false) :
    ((sentStep t u st).1.isSome = true ↔
      (endsTerminal (trim u) = false ∧ 15 ≤ u.length ∧ 4 ≤ (tokens u).length ∧
       colonEndReject (trim u) = false ∧
       (hasSubjectVerb u = true ∨
        (7 ≤ (tokens u).length ∧
         (codeWords.any fun w => containsSub w (toLowerStr u)) = false ∧
         20 * specialCount u < u.length)))) ∧
    (∀ e, (sentStep t u st).1 = some e →
      e.ruleId = ridMissingEnd ∧
      e.suggestions =
        [str "Add appropriate ending punctuation (period, exclamation mark, or question mark)"]) := by
  have hlt : ¬ (trim u).length < 10 := by omega
  constructor
  · simp only [sentStep, if_neg hlt, if_neg hst,
      if_neg (by rw [hskip]; exact Bool.false_ne_true : ¬ shouldSkipText u = true),
      if_neg (by rw [hhead]; exact Bool.false_ne_true : ¬ isHeadingOrTitle (trim u) = true)]
    by_cases hb : (!endsTerminal (trim u) && isContentSentence u) = true
    · rw [if_pos hb]
      simp only [Option.isSome_some, true_iff]
      rw [Bool.and_eq_true, Bool.not_eq_true'] at hb
      obtain ⟨hterm, hcontent⟩ := hb
      obtain ⟨h15, h4, hcr, hdisj⟩ := (isContentSentence_iff u).mp hcontent
      exact ⟨hterm, h15, h4, hcr, hdisj⟩
    · rw [if_neg hb]
      simp only [Option.isSome_none, Bool.false_eq_true, false_iff]
      rintro ⟨hterm, h15, h4, hcr, hdisj⟩
      exact hb (by
        rw [Bool.and_eq_true, Bool.not_eq_true']
        exact ⟨hterm, (isContentSentence_iff u).mpr ⟨h15, h4, hcr, hdisj⟩⟩)
  · intro e he
    obtain ⟨_, _, _, _, hrule, _, hsugg⟩ := sentStep_some t u st e he
    exact ⟨hrule, hsugg⟩

/-- C3 (amended): `disabledRules` is stored in the configuration but
never consulted by the analysis — the result of `checkPage` is identical
for any two values of `disabledRules`, so findings of a listed rule are
not dropped. -/
theorem disabledRules_no_effect (seg : Str → List Str) (st : List Str) (url t : Str)
    (di : Bool) (dr1 dr2 : List Str) :
    checkPage seg ⟨di, dr1⟩ st url t = checkPage seg ⟨di, dr2⟩ st url t := rfl

/-- C3 counterexample: with `HANGING_PREPOSITION` listed in
`disabledRules` (and the default `detectIncomplete`), the analysis still
reports a `HANGING_PREPOSITION` error when the pattern matches. -/
theorem disabledRules_counterexample :
    ((checkPage segmentSpec ⟨true, [ridHangPrep]⟩ [] (str "url") browserText).1.errors.map
      (fun e => e.ruleId)) = [ridMissingEnd, ridHangPrep] := by decide

/-- C4 (amended): with `detectIncomplete: false` the completeness branch
contributes nothing — the output is exactly the deduplicated pattern
matcher output and contains no `MISSING_END_PUNCTUATION` error.  The
pattern-matcher output of a `detectIncomplete: true` run over the same
text may differ, because the completeness pass records every processed
sentence fragment in the shared set, suppressing pattern matches with
the same trimmed text (see the counterexample). -/
theorem detectIncomplete_false_behaviour (seg : Str → List Str) (st : List Str)
    (url t : Str) (dr : List Str) :
    (checkPage seg ⟨false, dr⟩ st url t).1.errors
      = deduplicateErrors [] (checkRegexPatterns t st).1 ∧
    ((checkPage seg ⟨false, dr⟩ st url t).1.errors.filter
      (fun e => decide (e.ruleId = ridMissingEnd))) = [] := by
  refine ⟨rfl, ?_⟩
  rw [List.filter_eq_nil_iff]
  intro e he
  simp only [decide_eq_true_eq]
  have hsub : List.Sublist (checkPage seg ⟨false, dr⟩ st url t).1.errors
      (detectedErrors seg ⟨false, dr⟩ t st).1 := by
    simp only [checkPage]
    exact deduplicateErrors_sublist [] _
  have hreg : e ∈ (checkRegexPatterns t st).1 := hsub.subset he
  obtain ⟨_, _, _, _, hr⟩ := (checkRegexPatterns_inv t st).2.1 e hreg
  rcases hr with h | h | h <;> rw [h] <;> decide

/-- C4 counterexample: on `supportText`, a `detectIncomplete: true` run
reports no pattern-matcher error (the completeness pass visits the
single sentence fragment, fails the content test, but records the
fragment and so suppresses the hanging-preposition match), while a
`detectIncomplete: false` run over the same text reports the
`HANGING_PREPOSITION` match — contradicting the claim that the
pattern-matcher output is identical in both modes. -/
theorem detectIncomplete_pattern_output_counterexample :
    ((checkPage segmentSpec ⟨true, []⟩ [] (str "url") supportText).1.errors.filter
      (fun e => decide (e.ruleId = ridTransVerb) || decide (e.ruleId = ridHangPrep) ||
        decide (e.ruleId = ridBrowserInit))) = [] ∧
    (((checkPage segmentSpec ⟨false, []⟩ [] (str "url") supportText).1.errors.filter
      (fun e => decide (e.ruleId = ridTransVerb) || decide (e.ruleId = ridHangPrep) ||
        decide (e.ruleId = ridBrowserInit))).map (fun e => e.ruleId)) = [ridHangPrep] := by
  decide

/-- C2 counterexample: on `browserText` (with the completeness branch
off, so only the two regex detectors run), the hanging-preposition
fragment is accepted first and the strictly larger browser-initiated
fragment — whose trimmed text contains the accepted fragment as a
substring — is still reported afterwards: containment does not suppress. -/
theorem containment_law_counterexample :
    ((checkPage segmentSpec ⟨false, []⟩ [] (str "url") browserText).1.errors.map
      (fun e => trim e.context))
      = [str "We depend on browser-initiated things to", browserText] ∧
    containsSub (str "We depend on browser-initiated things to") browserText = true ∧
    str "We depend on browser-initiated things to" ≠ browserText := by decide

/-- C7 counterexample: two consecutive runs over identical input on the
same checker instance (the processed-fragment set of the first run is
fed to the second) do not produce identical error lists — the first run
reports one error, the second reports none. -/
theorem shared_instance_state_counterexample :
    ((checkPage segmentSpec (newChecker (some false) []).1 (newChecker (some false) []).2
        (str "url") supportText).1.errors.length = 1) ∧
    ((checkPage segmentSpec (newChecker (some false) []).1
        (checkPage segmentSpec (newChecker (some false) []).1 (newChecker (some false) []).2
          (str "url") supportText).2
        (str "url") supportText).1.errors = []) := by decide

/-- C8 counterexample: on the Scenario 1 input the analysis returns zero
errors, not exactly one — the trailing fragment "Please visit our site
to" is processed (and recorded) by the completeness branch, which then
suppresses the pattern matcher's hanging-preposition match. -/
theorem scenario1_counterexample :
    (checkPage segmentSpec ⟨true, []⟩ [] (str "url") scenario1Text).1.totalErrors = 0 := by
  decide

/-- C8 (amended): the Scenario 1 input produces an empty error list; in
particular no error carries the context "Contact Us". -/
theorem scenario1_zero_errors :
    (checkPage segmentSpec ⟨true, []⟩ [] (str "url") scenario1Text).1.errors = [] ∧
    ((checkPage segmentSpec ⟨true, []⟩ [] (str "url") scenario1Text).1.errors.filter
      (fun e => decide (e.context = str "Contact Us"))) = [] := by decide

/-- C5 counterexample: the unit `colonUnit` survives every noise filter,
lacks terminal punctuation, is at least 15 characters and 4 tokens, does
not end in a colon (it ends in `p`), and matches the subject/auxiliary
pattern — so the claim's condition holds — yet no error is emitted,
because the source's trailing-colon rejection `/:[^.]?$/` also rejects a
colon in second-to-last position. -/
theorem content_test_colon_counterexample :
    10 ≤ (trim colonUnit).length ∧ trim colonUnit ∉ ([] : List Str) ∧
    shouldSkipText colonUnit = false ∧ isHeadingOrTitle (trim colonUnit) = false ∧
    endsTerminal (trim colonUnit) = false ∧ 15 ≤ colonUnit.length ∧
    4 ≤ (tokens colonUnit).length ∧ (trim colonUnit).getLast? ≠ some ':' ∧
    hasSubjectVerb colonUnit = true ∧
    (sentStep colonUnit colonUnit []).1 = none := by decide

theorem trim_eq_nil_of_all_space {u : Str} (h : ∀ c ∈ u, isSpaceChar c = true) :
    trim u = [] := by
  have h1 : trimLeft u = [] := List.dropWhile_eq_nil_iff.mpr h
  unfold trim
  rw [h1]
  rfl

theorem splitNl_chars {t : Str} {l : Str} (hl : l ∈ splitNl t) : ∀ c ∈ l, c ∈ t := by
  induction t generalizing l with
  | nil =>
    simp only [splitNl, List.mem_singleton] at hl
    subst hl
    intro c hc
    exact absurd hc (List.not_mem_nil c)
  | cons a t ih =>
    intro c hc
    by_cases ha : a = '\n'
    · subst ha
      have hsp2 : splitNl ('\n' :: t) = [] :: splitNl t := by
        simp [splitNl]
      rw [hsp2] at hl
      rcases List.mem_cons.mp hl with rfl | hl2
      · exact absurd hc (List.not_mem_nil c)
      · exact List.mem_cons_of_mem _ (ih hl2 c hc)
    · simp only [splitNl, if_neg ha] at hl
      cases hsp : splitNl t with
      | nil =>
        rw [hsp] at hl
        simp only [List.mem_singleton] at hl
        subst hl
        rcases List.mem_cons.mp hc with rfl | hc2
        · exact List.mem_cons_self _ _
        · exact absurd hc2 (List.not_mem_nil c)
      | cons l0 ls =>
        rw [hsp] at hl
        rcases List.mem_cons.mp hl with rfl | hl2
        · rcases List.mem_cons.mp hc with rfl | hc2
          · exact List.mem_cons_self _ _
          · exact List.mem_cons_of_mem _ (ih (hsp ▸ List.mem_cons_self l0 ls) c hc2)
        · exact List.mem_cons_of_mem _ (ih (hsp ▸ List.mem_cons_of_mem l0 hl2) c hc)

theorem groupLines_lines {ls : List Str} {g : List Str} (hg : g ∈ groupLines ls) :
    ∀ l ∈ g, l ∈ ls := by
  induction ls generalizing g with
  | nil =>
    simp only [groupLines, List.mem_singleton] at hg
    subst hg
    intro l hl
    exact absurd hl (List.not_mem_nil l)
  | cons a ls ih =>
    intro l hl
    by_cases ha : a.isEmpty = true
    · simp only [groupLines, if_pos ha, List.mem_cons] at hg
      rcases hg with rfl | hg
      · exact absurd hl (List.not_mem_nil l)
      · exact List.mem_cons_of_mem _ (ih hg l hl)
    · simp only [groupLines, if_neg ha] at hg
      cases hsp : groupLines ls with
      | nil =>
        rw [hsp] at hg
        simp only [List.mem_singleton] at hg
        subst hg
        rcases List.mem_cons.mp hl with rfl | hl2
        · exact List.mem_cons_self _ _
        · exact absurd hl2 (List.not_mem_nil l)
      | cons g0 gs =>
        rw [hsp] at hg
        rcases List.mem_cons.mp hg with rfl | hg2
        · rcases List.mem_cons.mp hl with rfl | hl2
          · exact List.mem_cons_self _ _
          · exact List.mem_cons_of_mem _ (ih (hsp ▸ List.mem_cons_self g0 gs) l hl2)
        · exact List.mem_cons_of_mem _ (ih (hsp ▸ List.mem_cons_of_mem g0 hg2) l hl)

theorem joinNl_chars {g : List Str} : ∀ c ∈ joinNl g, (∃ l ∈ g, c ∈ l) ∨ c = '\n' := by
  induction g with
  | nil =>
    intro c hc
    exact absurd hc (List.not_mem_nil c)
  | cons l ls ih =>
    intro c hc
    cases ls with
    | nil =>
      simp only [joinNl] at hc
      exact Or.inl ⟨l, List.mem_cons_self _ _, hc⟩
    | cons l2 ls2 =>
      simp only [joinNl] at hc
      rcases List.mem_append.mp hc with hcl | hcr
      · exact Or.inl ⟨l, List.mem_cons_self _ _, hcl⟩
      · rcases List.mem_cons.mp hcr with rfl | hc2
        · exact Or.inr rfl
        · rcases ih c hc2 with ⟨l3, hl3, hcl3⟩ | rfl
          · exact Or.inl ⟨l3, List.mem_cons_of_mem _ hl3, hcl3⟩
          · exact Or.inr rfl

theorem sentSpansAux_chars {p cur : Str} {u : Str} (hu : u ∈ sentSpansAux p cur) :
    ∀ c ∈ u, c ∈ p ∨ c ∈ cur := by
  induction p generalizing cur with
  | nil =>
    intro c hc
    simp only [sentSpansAux] at hu
    split at hu
    · exact absurd hu (List.not_mem_nil u)
    · rw [List.mem_singleton] at hu
      subst hu
      exact Or.inr (List.mem_reverse.mp hc)
  | cons a p ih =>
    intro c hc
    simp only [sentSpansAux] at hu
    split at hu
    · rcases List.mem_cons.mp hu with rfl | hu2
      · rcases List.mem_reverse.mp hc with hc2
        rcases List.mem_cons.mp hc2 with rfl | hc3
        · exact Or.inl (List.mem_cons_self _ _)
        · exact Or.inr hc3
      · rcases ih hu2 c hc with hcp | hcc
        · exact Or.inl (List.mem_cons_of_mem _ hcp)
        · exact absurd hcc (List.not_mem_nil c)
    · rcases ih hu c hc with hcp | hcc
      · exact Or.inl (List.mem_cons_of_mem _ hcp)
      · rcases List.mem_cons.mp hcc with rfl | hc3
        · exact Or.inl (List.mem_cons_self _ _)
        · exact Or.inr hc3

theorem segmentSpec_all_space {t : Str} (h : ∀ c ∈ t, isSpaceChar c = true) :
    ∀ u ∈ segmentSpec t, ∀ c ∈ u, isSpaceChar c = true := by
  intro u hu c hc
  simp only [segmentSpec, List.mem_flatMap, List.mem_filter, List.mem_map] at hu
  obtain ⟨p, ⟨⟨g, hg, rfl⟩, _⟩, hup⟩ := hu
  rcases sentSpansAux_chars hup c hc with hcp | hcc
  · rcases joinNl_chars c hcp with ⟨l, hl, hcl⟩ | rfl
    · exact h c (splitNl_chars (groupLines_lines hg l hl) c hcl)
    · decide
  · exact absurd hcc (List.not_mem_nil c)

theorem toLower_space_cases {c : Char} (hc : isSpaceChar c = true) :
    toLowerChar c = c ∧ isUpperChar c = false := by
  simp only [isSpaceChar, decide_eq_true_eq] at hc
  rcases hc with rfl | rfl | rfl | rfl | rfl | rfl <;> exact ⟨by decide, by decide⟩

theorem sentStep_short {t u : Str} {st : List Str} (h : (trim u).length < 10) :
    sentStep t u st = (none, st) := by
  simp only [sentStep, if_pos h]

theorem sentLoop_all_short {t : Str} {us : List Str} {st : List Str}
    (h : ∀ u ∈ us, (trim u).length < 10) : sentLoop t us st = ([], st) := by
  induction us generalizing st with
  | nil => rfl
  | cons u us ih =>
    simp only [sentLoop, sentStep_short (h u (List.mem_cons_self _ _)),
      ih (fun v hv => h v (List.mem_cons_of_mem _ hv))]
    rfl

theorem ciAt_cons_head {b : Char} {w t : Str} {s : Nat} (h : ciAt (b :: w) t s = true) :
    ∃ c ∈ t, toLowerChar c = toLowerChar b := by
  unfold ciAt at h
  rw [Bool.and_eq_true, List.all_eq_true] at h
  obtain ⟨hlen, hall⟩ := h
  have h0 := hall 0 (List.mem_range.mpr (by simp))
  rcases hg : t.get? (s + 0) with _ | c
  · rw [hg] at h0
    simp at h0
  · rw [hg] at h0
    simp only [List.get?_cons_zero, decide_eq_true_eq] at h0
    exact ⟨c, List.get?_mem hg, h0⟩

theorem p1MatchAt_none_all_space {t : Str} (h : ∀ c ∈ t, isSpaceChar c = true) (s : Nat) :
    p1MatchAt t s = none := by
  unfold p1MatchAt
  have halt : p1Alt1.findSome? (fun w =>
      if ciAt w t s && nonWordBefore t s then some w.length else none) = none := by
    rw [List.findSome?_eq_none_iff]
    intro w hw
    rw [if_neg]
    intro hcond
    rw [Bool.and_eq_true] at hcond
    obtain ⟨hci, _⟩ := hcond
    simp only [p1Alt1, List.mem_cons, List.not_mem_nil, or_false] at hw
    rcases hw with rfl | rfl
    · rw [show str "please note" = 'p' :: str "lease note" from rfl] at hci
      obtain ⟨c, hct, hlow⟩ := ciAt_cons_head hci
      rw [(toLower_space_cases (h c hct)).1] at hlow
      rw [show toLowerChar 'p' = 'p' from rfl] at hlow
      subst hlow
      exact absurd (h _ hct) (by decide)
    · rw [show str "it is important to note" = 'i' :: str "t is important to note" from rfl] at hci
      obtain ⟨c, hct, hlow⟩ := ciAt_cons_head hci
      rw [(toLower_space_cases (h c hct)).1] at hlow
      rw [show toLowerChar 'i' = 'i' from rfl] at hlow
      subst hlow
      exact absurd (h _ hct) (by decide)
  rw [halt]

theorem p1Loop_all_space {t : Str} (h : ∀ c ∈ t, isSpaceChar c = true) :
    ∀ fuel li, p1Loop t fuel li = [] := by
  intro fuel li
  cases fuel with
  | zero => rfl
  | succ n =>
    simp only [p1Loop]
    rw [List.findSome?_eq_none_iff.mpr (fun s _ => p1MatchAt_none_all_space h s)]

theorem p2MatchAt_none_all_space {t : Str} (h : ∀ c ∈ t, isSpaceChar c = true) (s : Nat) :
    p2MatchAt t s = none := by
  unfold p2MatchAt
  rcases hg : t.get? s with _ | c
  · rfl
  · have hup : isUpperChar c = false := (toLower_space_cases (h c (List.get?_mem hg))).2
    simp [hup]

theorem p2Loop_all_space {t : Str} (h : ∀ c ∈ t, isSpaceChar c = true) :
    ∀ fuel li, p2Loop t fuel li = [] := by
  intro fuel li
  cases fuel with
  | zero => rfl
  | succ n =>
    simp only [p2Loop]
    rw [List.findSome?_eq_none_iff.mpr (fun s _ => p2MatchAt_none_all_space h s)]

theorem p3KOk_false_all_space {t : Str} (h : ∀ c ∈ t, isSpaceChar c = true) (s k : Nat) :
    p3KOk t s k = false := by
  have hsub : substrAt litBI t k = false := by
    by_contra hx
    rw [Bool.not_eq_false] at hx
    unfold substrAt at hx
    obtain ⟨rest, hrest⟩ := List.isPrefixOf_iff_prefix.mp hx
    have hb : 'b' ∈ t.drop k := by
      rw [← hrest]
      exact List.mem_append_left _ (by decide)
    exact absurd (h 'b' (List.drop_subset _ _ hb)) (by decide)
  unfold p3KOk
  rw [hsub]
  simp

theorem p3MatchAt_none_all_space {t : Str} (h : ∀ c ∈ t, isSpaceChar c = true) (s : Nat) :
    p3MatchAt t s = none := by
  unfold p3MatchAt
  rw [List.filter_eq_nil_iff.mpr (fun k _ => by
    rw [p3KOk_false_all_space h s k]
    exact Bool.false_ne_true)]
  rfl

theorem p3Loop_all_space {t : Str} (h : ∀ c ∈ t, isSpaceChar c = true) :
    ∀ fuel li, p3Loop t fuel li = [] := by
  intro fuel li
  cases fuel with
  | zero => rfl
  | succ n =>
    simp only [p3Loop]
    rw [List.findSome?_eq_none_iff.mpr (fun s _ => p3MatchAt_none_all_space h s)]

theorem checkRegexPatterns_all_space {t : Str} (st : List Str)
    (h : ∀ c ∈ t, isSpaceChar c = true) : checkRegexPatterns t st = ([], st) := by
  unfold checkRegexPatterns
  rw [show p1Matches t = [] from p1Loop_all_space h _ _,
    show p2Matches t = [] from p2Loop_all_space h _ _,
    show p3Matches t = [] from p3Loop_all_space h _ _]
  rfl

/-- C9: the analysis is a total function with no failure mode, and every
empty or whitespace-only input yields an empty error list with
`totalErrors = 0`. -/
theorem degenerate_input_no_errors (opts : CheckerOptions) (st : List Str) (url t : Str)
    (h : ∀ c ∈ t, isSpaceChar c = true) :
    (checkPage segmentSpec opts st url t).1.errors = [] ∧
    (checkPage segmentSpec opts st url t).1.totalErrors = 0 := by
  have hsent : detectIncompleteWithCompromise segmentSpec opts t st = ([], st) := by
    unfold detectIncompleteWithCompromise
    split
    · rfl
    · apply sentLoop_all_short
      intro u hu
      rw [trim_eq_nil_of_all_space (segmentSpec_all_space h u hu)]
      decide
  have hdet : (detectedErrors segmentSpec opts t st).1 = [] := by
    unfold detectedErrors
    rw [hsent]
    show ([] ++ (checkRegexPatterns t st).1) = []
    rw [checkRegexPatterns_all_space st h]
    rfl
  have herrs : (checkPage segmentSpec opts st url t).1.errors
      = deduplicateErrors [] (detectedErrors segmentSpec opts t st).1 := rfl
  have htot : (checkPage segmentSpec opts st url t).1.totalErrors
      = (deduplicateErrors [] (detectedErrors segmentSpec opts t st).1).length := rfl
  rw [herrs, htot, hdet]
  exact ⟨rfl, rfl⟩

theorem missing_end_punctuation_iff_witness :
    (sentStep contentUnit contentUnit []).1.isSome = true :=
  ((missing_end_punctuation_iff contentUnit contentUnit []
    (by decide) (by decide) (by decide) (by decide)).1).mpr (by decide)

theorem heading_never_context_witness :
    isHeadingOrTitle (str "We depend on your support to") = false :=
  heading_never_context segmentSpec ⟨false, []⟩ [] (str "url") supportText
    { message := str "Sentence ends with a preposition"
      context := str "We depend on your support to"
      suggestions := [str "Complete the prepositional phrase with an object",
        str "Add proper punctuation"]
      ruleId := ridHangPrep
      position := { offset := 0, length := 28 } }
    (by decide)

theorem run_state_suppression_witness :
    str "We depend on your support to" ∉ [str "unrelated fragment"] :=
  run_state_suppression segmentSpec ⟨false, []⟩ [str "unrelated fragment"]
    (str "url") supportText
    { message := str "Sentence ends with a preposition"
      context := str "We depend on your support to"
      suggestions := [str "Complete the prepositional phrase with an object",
        str "Add proper punctuation"]
      ruleId := ridHangPrep
      position := { offset := 0, length := 28 } }
    (by decide)

theorem degenerate_input_no_errors_witness :
    (checkPage segmentSpec ⟨true, []⟩ [] (str "url") (str "  \n ")).1.errors = [] ∧
    (checkPage segmentSpec ⟨true, []⟩ [] (str "url") (str "  \n ")).1.totalErrors = 0 :=
  degenerate_input_no_errors ⟨true, []⟩ [] (str "url") (str "  \n ") (by decide)
